import Mathlib

/-!
# Verification of the inkscape-mcp CLI server's safety core

A shallow embedding of `src/inkscape_mcp/cli_server.py`: the path-confinement
check (`_ensure_in_workspace`), the size checks (`_check_size`, `_write_inline`),
the action allowlist (`_is_safe_action`, `RunArgs.validate_actions`), the
command builder (`_mk_cmd`) and the orchestrated run (`_action_run_impl`)
together with its subprocess lifecycle, modelled as a pure function from an
oracle describing the outside world (file sizes, child-process behaviour) to a
result and a trace of observable effects.

Paths are modelled POSIX-style as lists of components, each component a list of
characters; `os.sep` is `'/'`.  `Path.resolve()` is modelled as textual
normalisation of `.` and `..` segments (symbolic-link resolution is abstracted:
the model works on already-link-resolved component lists).
-/

namespace InkscapeMcp

/-- A path component: the characters between separators. -/
abbrev Comp := List Char

/-- A Python `pathlib.Path` value: absolute flag plus components.
On POSIX, `Path(s)` splits only on `'/'`; a backslash is an ordinary
character inside a component. -/
structure PyPath where
  absolute : Bool
  comps : List Comp
  deriving DecidableEq, Repr

/-- Python's `str.startswith`, modelled on the character lists. -/
def pyStartsWith (a pre : String) : Bool := pre.toList.isPrefixOf a.toList

/-- Parsing of a raw string into a POSIX `Path`: absolute iff it starts with
`'/'`; components are the nonempty `'/'`-separated segments. -/
def parsePath (s : String) : PyPath :=
  ⟨pyStartsWith s "/", (s.toList.splitOn '/').filter (fun c => !(c.isEmpty))⟩

/-- Textual `..`/`.` elimination, the pure part of `Path.resolve()`:
`.` is dropped, `..` removes the previous component (staying put at the
root), anything else is kept. -/
def normalizeAux (acc : List Comp) : List Comp → List Comp
  | [] => acc
  | c :: cs =>
    if c = ['.'] then normalizeAux acc cs
    else if c = ['.', '.'] then normalizeAux acc.dropLast cs
    else normalizeAux (acc ++ [c]) cs

def normalize (cs : List Comp) : List Comp := normalizeAux [] cs

/-- Model of `Path.resolve()` relative to a base directory `cwd`
(the workspace for the relative branch of `_ensure_in_workspace`). -/
def pyResolve (cwd : List Comp) (p : PyPath) : List Comp :=
  if p.absolute then normalize p.comps else normalize (cwd ++ p.comps)

/-- `str()` of an absolute path given by its components: `"/a/b"`.
`joinComps` is the part after the leading separator. -/
def joinComps : List Comp → List Char
  | [] => []
  | [c] => c
  | c :: c2 :: cs => c ++ '/' :: joinComps (c2 :: cs)

def pathChars (cs : List Comp) : List Char := '/' :: joinComps cs

/-- `_ensure_in_workspace` (cli_server.py lines 38-53): resolve the workspace
and the candidate (joining the candidate to the workspace first when it is
relative), then accept iff the resolved candidate equals the resolved
workspace or its string form starts with the workspace's string form followed
by `os.sep`.  `none` models the raised `ValidationError("Path escapes
workspace")`. -/
def ensure_in_workspace (ws : List Comp) (p : PyPath) : Option (List Comp) :=
  if pyResolve ws p = normalize ws
      ∨ (pathChars (normalize ws) ++ ['/']) <+: pathChars (pyResolve ws p) then
    some (pyResolve ws p)
  else
    none

/-- The spec's acceptance predicate: the canonical candidate equals the
canonical root or has it as a proper ancestor (component-wise). -/
def inWorkspace (root q : List Comp) : Prop :=
  q = root ∨ (root <+: q ∧ root ≠ q)

instance (root q : List Comp) : Decidable (inWorkspace root q) := by
  unfold inWorkspace; infer_instance

/-! ## Action allowlist: `SAFE_ACTIONS`, `_is_safe_action`, `RunArgs.validate_actions` -/

/-- The explicit allowlist of safe actions (cli_server.py lines 69-101). -/
def SAFE_ACTIONS : List String := [
  "select-all", "select-clear", "select-by-id", "select-by-class", "select-by-element",
  "path-union", "path-difference", "path-intersection", "path-division", "path-exclusion",
  "path-simplify", "object-to-path", "object-stroke-to-path",
  "selection-group", "selection-ungroup",
  "export-area-page", "export-area-drawing", "export-type", "export-filename",
  "export-dpi", "export-do", "file-save", "file-close",
  "transform-translate", "transform-scale", "transform-rotate",
  "query-x", "query-y", "query-width", "query-height", "query-all"]

/-- `a.split(":", 1)[0]`: the part of the token before the first `':'`. -/
def stripId (a : String) : String := String.mk (a.toList.takeWhile (fun c => !(c == ':')))

/-- `_is_safe_action` (lines 104-107). -/
def is_safe_action (a : String) : Bool := SAFE_ACTIONS.contains (stripId a)

/-- `RunArgs.validate_actions` (lines 135-142): reject the whole list on the
first token failing `_is_safe_action`. -/
def validate_actions (v : List String) : Except String (List String) :=
  match v.find? (fun a => !(is_safe_action a)) with
  | some a => Except.error ("Unsafe action: " ++ a)
  | none => Except.ok v

/-! ## Error taxonomy and size checks -/

/-- Request-terminal errors of the CLI server (ValidationError / ToolError
messages, keyed by the spec's taxonomy).  `executionFailed` carries the
message the code puts in the raised `ToolError`. -/
inductive Err where
  | pathEscape
  | notFound
  | tooLarge
  | missingPath
  | missingContent
  | unsafeAction
  | timeout
  | exportMissing
  | executionFailed (msg : String)
  deriving DecidableEq, Repr

instance exceptDecEq {ε α : Type} [DecidableEq ε] [DecidableEq α] :
    DecidableEq (Except ε α) := fun a b =>
  match a, b with
  | Except.error e, Except.error f =>
    if h : e = f then isTrue (by rw [h]) else isFalse (by intro hc; injection hc; exact h (by assumption))
  | Except.error _, Except.ok _ => isFalse (by intro hc; exact Except.noConfusion hc)
  | Except.ok _, Except.error _ => isFalse (by intro hc; exact Except.noConfusion hc)
  | Except.ok x, Except.ok y =>
    if h : x = y then isTrue (by rw [h]) else isFalse (by intro hc; injection hc; exact h (by assumption))

/-- `_check_size` (lines 56-65): `stat` the file (`none` models
`FileNotFoundError`), then compare `st_size` strictly against the maximum. -/
def check_size (statSize : Option Nat) (maxFileSize : Nat) : Except Err Unit :=
  match statSize with
  | none => Except.error Err.notFound
  | some s => if s > maxFileSize then Except.error Err.tooLarge else Except.ok ()

/-- The size gate of `_write_inline` (line 152): UTF-8 byte length strictly
greater than the maximum is rejected. -/
def inline_size_ok (svg : String) (maxFileSize : Nat) : Except Err Unit :=
  if svg.utf8ByteSize > maxFileSize then Except.error Err.tooLarge else Except.ok ()

/-! ## Request data model -/

inductive DocKind where
  | file
  | inline
  deriving DecidableEq, Repr

/-- The `Doc` pydantic model. -/
structure Doc where
  kind : DocKind
  path : Option PyPath := none
  svg : Option String := none
  deriving DecidableEq, Repr

inductive ExportType where
  | png
  | pdf
  | svg
  deriving DecidableEq, Repr

def ExportType.str : ExportType → String
  | .png => "png"
  | .pdf => "pdf"
  | .svg => "svg"

inductive ExportArea where
  | page
  | drawing
  deriving DecidableEq, Repr

/-- The `Export` pydantic model; `out` is the caller-supplied destination. -/
structure ExportSpec where
  etype : ExportType
  out : PyPath
  dpi : Option Nat := none
  area : ExportArea := ExportArea.page
  deriving DecidableEq, Repr

/-! ## Command construction: `_mk_cmd` (lines 161-178) -/

/-- The condition on line 164: any action starting with `select-` or `query-`. -/
def selectClearNeeded (actions : List String) : Bool :=
  actions.any (fun a => pyStartsWith a "select-" || pyStartsWith a "query-")

/-- The export sub-steps appended when an export is requested (lines 168-175).
`tmpStr` is the string form of the temporary export path; note the `dpi`
truthiness test (`if args.export.dpi:`) skips both `None` and `0`. -/
def exportActs (e : ExportSpec) (tmpStr : String) : List String :=
  [match e.area with
   | ExportArea.page => "export-area-page"
   | ExportArea.drawing => "export-area-drawing"]
  ++ ["export-type:" ++ e.etype.str, "export-filename:" ++ tmpStr]
  ++ (match e.dpi with
      | some d => if d = 0 then [] else ["export-dpi:" ++ toString d]
      | none => [])
  ++ ["export-do"]

/-- The export sub-steps, or nothing when no export was requested. -/
def exportTail (export? : Option ExportSpec) (tmpStr? : Option String) : List String :=
  match export?, tmpStr? with
  | some e, some ts => exportActs e ts
  | _, _ => []

/-- The full action list handed to the engine. -/
def mkActs (actions : List String) (export? : Option ExportSpec) (tmpStr? : Option String) :
    List String :=
  (if selectClearNeeded actions then ["select-clear"] else []) ++ actions
  ++ exportTail export? tmpStr?

/-- `_mk_cmd`: the argv handed to `subprocess.Popen`. -/
def mk_cmd (infileStr : String) (actions : List String) (export? : Option ExportSpec)
    (tmpStr? : Option String) : List String :=
  ["inkscape", infileStr,
   "--actions=" ++ String.intercalate ";" (mkActs actions export? tmpStr?),
   "--batch-process"]

/-! ## The world oracle and the effect trace -/

/-- Behaviour of the spawned child under `proc.communicate(timeout)`:
either it finishes in time with the given exit code and output, or the wait
raises `TimeoutExpired`; in the latter case `diesInGrace` says whether the
second `communicate(timeout=5)` (the 5-unit grace period after the graceful
termination signal) succeeds. -/
structure ProcOutcome where
  timesOut : Bool
  diesInGrace : Bool
  returncode : Int
  stdout : String
  stderr : String
  deriving DecidableEq, Repr

/-- Everything outside the code's control: the stat of the input file, the
child-process behaviour, whether the engine produced the temporary export
artifact, the platform, and the two `uuid4().hex` draws. -/
structure World where
  fileStat : Option Nat
  proc : ProcOutcome
  tmpExportExists : Bool
  isWindows : Bool
  inlineHex : List Char
  tmpHex : List Char
  deriving DecidableEq, Repr

/-- The configuration fields of `InkscapeConfig` the run path consumes. -/
structure Cfg where
  workspace : List Comp
  maxFileSize : Nat
  timeoutDefault : Nat
  deriving DecidableEq, Repr

/-- Observable effects of a run, in program order. -/
inductive Ev where
  | semAcquire
  | semRelease
  | writeInline (p : List Comp)
  | lockAcquire (key : List Char)
  | lockRelease (key : List Char)
  | spawn (cmd : List String)
  | killpgTerm
  | terminateProc
  | kill
  | reap
  | mkdirp (p : List Comp)
  | replace (src dst : List Comp)
  | unlink (p : List Comp)
  deriving DecidableEq, Repr

/-! ## `_action_run_impl` (lines 211-333), staged -/

/-- `pathlib`'s suffix length of a file name: the suffix starts at the last
`'.'` provided that dot is neither the first nor the last character. -/
def pySuffixLen (name : List Char) : Nat :=
  match ((List.range name.length).filter (fun i => name.get? i = some '.')).getLast? with
  | some i => if 0 < i ∧ i < name.length - 1 then name.length - i else 0
  | none => 0

def pyStem (name : List Char) : List Char := name.take (name.length - pySuffixLen name)

def pySuffix (name : List Char) : List Char := name.drop (name.length - pySuffixLen name)

/-- Line 249-251: `final_export.stem + f".tmp-{uuid4().hex}" + final_export.suffix`. -/
def tmpExportName (finalExport : List Comp) (hex : List Char) : Comp :=
  pyStem (finalExport.getLast?.getD [])
    ++ (".tmp-".toList ++ hex)
    ++ pySuffix (finalExport.getLast?.getD [])

/-- Line 155: the fresh inline file name `inline-{uuid4().hex}.svg`. -/
def inlineName (w : World) : Comp := "inline-".toList ++ w.inlineHex ++ ".svg".toList

/-- Lines 232-241: resolve the input document to an on-disk file, returning
the effect of writing the inline temporary when one is created. -/
def resolveInput (cfg : Cfg) (w : World) (doc : Doc) :
    Except Err (List Comp × List Ev) :=
  match doc.kind with
  | DocKind.file =>
    match doc.path with
    | none => Except.error Err.missingPath
    | some p =>
      match ensure_in_workspace cfg.workspace p with
      | none => Except.error Err.pathEscape
      | some infile =>
        match check_size w.fileStat cfg.maxFileSize with
        | Except.error e => Except.error e
        | Except.ok _ => Except.ok (infile, [])
  | DocKind.inline =>
    match doc.svg with
    | none => Except.error Err.missingContent
    | some svg =>
      match inline_size_ok svg cfg.maxFileSize with
      | Except.error e => Except.error e
      | Except.ok _ =>
        Except.ok (cfg.workspace ++ [inlineName w],
          [Ev.writeInline (cfg.workspace ++ [inlineName w])])

/-- Lines 243-252: validate the export destination and derive the temporary
export path next to it. -/
def prepExport (cfg : Cfg) (w : World) (export? : Option ExportSpec) :
    Except Err (Option (List Comp × List Comp)) :=
  match export? with
  | none => Except.ok none
  | some e =>
    match ensure_in_workspace cfg.workspace e.out with
    | none => Except.error Err.pathEscape
    | some finalExport =>
      Except.ok (some
        (finalExport.dropLast ++ [tmpExportName finalExport w.tmpHex], finalExport))

/-- Line 273: `FileLock(str(lock_path) + ".lock")`. -/
def lockKey (infile : List Comp) : List Char := pathChars infile ++ ".lock".toList

/-- Line 229: `args.timeout_s or CFG.timeout_default` — Python truthiness, so
an explicit `0` also falls back to the default. -/
def effTimeout (timeout_s : Option Nat) (cfg : Cfg) : Nat :=
  match timeout_s with
  | some t => if t = 0 then cfg.timeoutDefault else t
  | none => cfg.timeoutDefault

/-- Lines 271-306: spawn, wait, and on `TimeoutExpired` run the graceful
(`os.killpg(..., SIGTERM)` on POSIX, `proc.terminate()` on Windows) then
forceful (`proc.kill()` plus reaping `communicate()`) termination ladder,
under the exclusive file lock when one is given.  The two Python branches
(with and without `FileLock`) are identical except for the lock bracket. -/
def runProcess (w : World) (lockKey? : Option (List Char)) (cmd : List String) :
    Except Err (Int × String × String) × List Ev :=
  let termEvs : List Ev := if w.isWindows then [Ev.terminateProc] else [Ev.killpgTerm]
  let graceEvs : List Ev := if w.proc.diesInGrace then [] else [Ev.kill, Ev.reap]
  let core : Except Err (Int × String × String) × List Ev :=
    if w.proc.timesOut then
      (Except.error Err.timeout, Ev.spawn cmd :: (termEvs ++ graceEvs))
    else
      (Except.ok (w.proc.returncode, w.proc.stdout, w.proc.stderr), [Ev.spawn cmd])
  match lockKey? with
  | some key => (core.1, Ev.lockAcquire key :: (core.2 ++ [Ev.lockRelease key]))
  | none => core

/-- Lines 308-319: after the process wait, a non-zero exit fails with the
fixed `"inkscape failed"` message; on success the export artifact, when one
was requested, must exist and is published by `mkdir -p` on the destination
directory followed by a single `os.replace`. -/
def runBody (w : World) (texp? : Option (List Comp × List Comp))
    (res : Except Err (Int × String × String)) :
    Except Err (Option (List Comp)) × List Ev :=
  match res with
  | Except.error e => (Except.error e, [])
  | Except.ok (rc, _stdout, _stderr) =>
    if rc ≠ 0 then (Except.error (Err.executionFailed "inkscape failed"), [])
    else
      match texp? with
      | some (tmpExport, finalExport) =>
        if w.tmpExportExists then
          (Except.ok (some finalExport),
           [Ev.mkdirp finalExport.dropLast, Ev.replace tmpExport finalExport])
        else (Except.error Err.exportMissing, [])
      | none => (Except.ok none, [])

/-- Lines 321-333, the `finally:` block: unlink the inline temporary input
if the document was inline, and unlink the temporary export artifact if an
export was prepared (`missing_ok=True` makes both unconditional attempts). -/
def cleanupEvs (doc : Doc) (infile : List Comp)
    (texp? : Option (List Comp × List Comp)) : List Ev :=
  (if doc.kind = DocKind.inline then [Ev.unlink infile] else [])
  ++ (match texp? with
      | some (tmpExport, _) => [Ev.unlink tmpExport]
      | none => [])

/-- Lines 254-255: a per-file exclusive lock only for real files; inline
documents skip locking. -/
def lockOf (doc : Doc) (infile : List Comp) : Option (List Char) :=
  if doc.kind = DocKind.file then some (lockKey infile) else none

/-- Line 257: the command built from the resolved input, the requested
actions and the temporary export path. -/
def cmdOf (infile : List Comp) (actions : List String) (export? : Option ExportSpec)
    (texp? : Option (List Comp × List Comp)) : List String :=
  mk_cmd (String.mk (pathChars infile)) actions export?
    (texp?.map (fun te => String.mk (pathChars te.1)))

/-- `_action_run_impl` end to end: result plus effect trace.  The pydantic
validator runs at `RunArgs(...)` construction, before the semaphore; input
resolution and export preparation happen inside `async with SEM:` but outside
the `try:` whose `finally:` does the unlink cleanup, so their failures skip
that cleanup. -/
def action_run (cfg : Cfg) (w : World) (doc : Doc) (actions : List String)
    (export? : Option ExportSpec) (timeout_s : Option Nat) :
    Except Err (Option (List Comp)) × List Ev :=
  match validate_actions actions with
  | Except.error _ => (Except.error Err.unsafeAction, [])
  | Except.ok _ =>
    let _timeout := effTimeout timeout_s cfg
    match resolveInput cfg w doc with
    | Except.error e => (Except.error e, [Ev.semAcquire, Ev.semRelease])
    | Except.ok (infile, evsIn) =>
      match prepExport cfg w export? with
      | Except.error e =>
        (Except.error e, Ev.semAcquire :: (evsIn ++ [Ev.semRelease]))
      | Except.ok texp? =>
        let run := runProcess w (lockOf doc infile) (cmdOf infile actions export? texp?)
        let body := runBody w texp? run.1
        (body.1,
         Ev.semAcquire :: (evsIn ++ run.2 ++ body.2
           ++ cleanupEvs doc infile texp? ++ [Ev.semRelease]))

/-! ## Concrete fixtures used by witnesses and counterexamples -/

def cfgW : Cfg := ⟨["ws".toList], 100, 60⟩

/-- A world where the child exits 0 immediately and the export artifact
appears. -/
def wOk : World := ⟨some 10, ⟨false, true, 0, "", ""⟩, true, false, "aaaa".toList, "bbbb".toList⟩

def docFileA : Doc := ⟨DocKind.file, some ⟨false, ["a.svg".toList]⟩, none⟩

def docInline : Doc := ⟨DocKind.inline, none, some "<svg/>"⟩

/-! ## Supporting lemmas for the claims -/

/-- Splitting a separator-aware string prefix: if the components on both
sides are free of the separator, then `c/r` being a string prefix of `d/s`
forces the first components to agree. -/
theorem slashfree_prefix_split (c : List Char) : ∀ (d r s : List Char), '/' ∉ c → '/' ∉ d →
    (c ++ '/' :: r) <+: (d ++ '/' :: s) → c = d ∧ r <+: s := by
  induction c with
  | nil =>
    intro d r s _ hd h
    cases d with
    | nil =>
      simp only [List.nil_append, List.cons_prefix_cons] at h
      exact ⟨rfl, h.2⟩
    | cons x d' =>
      simp only [List.nil_append, List.cons_append, List.cons_prefix_cons] at h
      rw [← h.1] at hd
      simp at hd
  | cons y c' ih =>
    intro d r s hc hd h
    cases d with
    | nil =>
      simp only [List.cons_append, List.nil_append, List.cons_prefix_cons] at h
      rw [h.1] at hc
      simp at hc
    | cons x d' =>
      simp only [List.cons_append, List.cons_prefix_cons] at h
      have hc' : '/' ∉ c' := fun hm => hc (List.mem_cons_of_mem _ hm)
      have hd' : '/' ∉ d' := fun hm => hd (List.mem_cons_of_mem _ hm)
      obtain ⟨heq, hpre⟩ := ih d' r s hc' hd' h.2
      exact ⟨by rw [h.1, heq], hpre⟩

/-- `joinComps` distributes over append of nonempty lists, inserting a
separator. -/
theorem joinComps_append (a : List Comp) : ∀ (b : List Comp), a ≠ [] → b ≠ [] →
    joinComps (a ++ b) = joinComps a ++ '/' :: joinComps b := by
  induction a with
  | nil => intro b ha _; exact absurd rfl ha
  | cons c a' ih =>
    intro b _ hb
    cases a' with
    | nil =>
      cases b with
      | nil => exact absurd rfl hb
      | cons d b' => simp [joinComps]
    | cons c2 a'' =>
      have := ih b (by simp) hb
      simp only [List.cons_append] at this ⊢
      cases hab : a'' ++ b with
      | nil => simp_all
      | cons z zs =>
        simp only [joinComps, hab] at this ⊢
        rw [this]
        simp

/-- Forward direction: the code's string-prefix test implies component-wise
proper ancestry, for slash-free components. -/
theorem joinComps_prefix_strict (ws : List Comp) : ∀ (p : List Comp),
    (∀ c ∈ ws, '/' ∉ c) → (∀ c ∈ p, '/' ∉ c) → ws ≠ [] →
    (joinComps ws ++ ['/'] <+: joinComps p) → ws <+: p ∧ ws ≠ p := by
  induction ws with
  | nil => intro p _ _ hne _; exact absurd rfl hne
  | cons c ws' ih =>
    intro p hws hp _ h
    cases p with
    | nil =>
      exfalso
      have hlen := h.length_le
      simp [joinComps] at hlen
    | cons d p' =>
      cases ws' with
      | nil =>
        cases p' with
        | nil =>
          exfalso
          have hmem : '/' ∈ joinComps [d] := h.subset (by simp [joinComps])
          exact hp d (by simp) (by simpa [joinComps] using hmem)
        | cons d2 p'' =>
          have hsh : joinComps [c] ++ ['/'] = c ++ '/' :: ([] : List Char) := by
            simp [joinComps]
          have hsh2 : joinComps (d :: d2 :: p'') = d ++ '/' :: joinComps (d2 :: p'') := by
            simp [joinComps]
          have hsplit := slashfree_prefix_split c d [] (joinComps (d2 :: p''))
            (hws c (by simp)) (hp d (by simp)) (by rw [← hsh, ← hsh2]; exact h)
          constructor
          · exact ⟨d2 :: p'', by simp [hsplit.1]⟩
          · intro he
            have := congrArg List.length he
            simp at this
      | cons c2 ws'' =>
        cases p' with
        | nil =>
          exfalso
          have hmem : '/' ∈ joinComps [d] := by
            refine h.subset ?_
            have hsh : joinComps (c :: c2 :: ws'') ++ ['/']
                = c ++ '/' :: (joinComps (c2 :: ws'') ++ ['/']) := by
              simp [joinComps]
            rw [hsh]
            simp
          exact hp d (by simp) (by simpa [joinComps] using hmem)
        | cons d2 p'' =>
          have hsh : joinComps (c :: c2 :: ws'') ++ ['/']
              = c ++ '/' :: (joinComps (c2 :: ws'') ++ ['/']) := by
            simp [joinComps]
          have hsh2 : joinComps (d :: d2 :: p'') = d ++ '/' :: joinComps (d2 :: p'') := by
            simp [joinComps]
          have hsplit := slashfree_prefix_split c d
            (joinComps (c2 :: ws'') ++ ['/']) (joinComps (d2 :: p''))
            (hws c (by simp)) (hp d (by simp)) (by rw [← hsh, ← hsh2]; exact h)
          have ihres := ih (d2 :: p'') (fun x hx => hws x (List.mem_cons_of_mem _ hx))
            (fun x hx => hp x (List.mem_cons_of_mem _ hx)) (by simp) hsplit.2
          constructor
          · rw [List.cons_prefix_cons]
            exact ⟨hsplit.1, ihres.1⟩
          · intro he
            injection he with h1 h2
            exact ihres.2 h2

/-- Reverse direction: proper component-wise ancestry gives the string
prefix the code tests for. -/
theorem joinComps_prefix_of_strict (ws p : List Comp) (hne : ws ≠ [])
    (h : ws <+: p) (hne2 : ws ≠ p) : joinComps ws ++ ['/'] <+: joinComps p := by
  obtain ⟨rest, hrest⟩ := h
  have hr : rest ≠ [] := by
    rintro rfl
    exact hne2 (by simpa using hrest)
  subst hrest
  rw [joinComps_append ws rest hne hr]
  exact ⟨joinComps rest, by simp⟩

/-- The code's separator-aware string-prefix test coincides with component-wise
proper ancestry, for slash-free components and a nonempty root. -/
theorem joinComps_prefix_iff (ws p : List Comp)
    (hne : ws ≠ []) (hws : ∀ c ∈ ws, '/' ∉ c) (hp : ∀ c ∈ p, '/' ∉ c) :
    (joinComps ws ++ ['/'] <+: joinComps p) ↔ (ws <+: p ∧ ws ≠ p) :=
  ⟨joinComps_prefix_strict ws p hws hp hne,
   fun h => joinComps_prefix_of_strict ws p hne h.1 h.2⟩

/-- `normalizeAux` only ever emits components drawn from the accumulator or
the input: `.`/`..` processing never invents or splits a component. -/
theorem mem_normalizeAux : ∀ (cs acc : List Comp) (c : Comp),
    c ∈ normalizeAux acc cs → c ∈ acc ∨ c ∈ cs := by
  intro cs
  induction cs with
  | nil =>
    intro acc c h
    exact Or.inl (by simpa [normalizeAux] using h)
  | cons x cs' ih =>
    intro acc c h
    by_cases h1 : x = ['.']
    · simp only [normalizeAux, if_pos h1] at h
      rcases ih acc c (by simpa [h1] using h) with h2 | h2
      · exact Or.inl h2
      · exact Or.inr (List.mem_cons_of_mem _ h2)
    · by_cases h2 : x = ['.', '.']
      · simp only [normalizeAux, if_neg h1, if_pos h2] at h
        rcases ih acc.dropLast c h with h3 | h3
        · exact Or.inl ((List.dropLast_sublist acc).subset h3)
        · exact Or.inr (List.mem_cons_of_mem _ h3)
      · simp only [normalizeAux, if_neg h1, if_neg h2] at h
        rcases ih (acc ++ [x]) c h with h3 | h3
        · rcases List.mem_append.1 h3 with h4 | h4
          · exact Or.inl h4
          · simp at h4
            exact Or.inr (by simp [h4])
        · exact Or.inr (List.mem_cons_of_mem _ h3)

theorem mem_normalize (cs : List Comp) (c : Comp) (h : c ∈ normalize cs) : c ∈ cs := by
  rcases mem_normalizeAux cs [] c h with h2 | h2
  · simp at h2
  · exact h2

/-- The acceptance test of `_ensure_in_workspace` coincides with the spec's
`inWorkspace` predicate, for slash-free components and a workspace that does
not canonicalize to the filesystem root. -/
theorem ensure_in_workspace_eq (ws : List Comp) (p : PyPath)
    (hws : ∀ c ∈ ws, '/' ∉ c) (hp : ∀ c ∈ p.comps, '/' ∉ c)
    (hroot : normalize ws ≠ []) :
    ensure_in_workspace ws p =
      if inWorkspace (normalize ws) (pyResolve ws p) then some (pyResolve ws p) else none := by
  have hwsR : ∀ c ∈ normalize ws, '/' ∉ c := fun c hc => hws c (mem_normalize ws c hc)
  have hpR : ∀ c ∈ pyResolve ws p, '/' ∉ c := by
    intro c hc
    unfold pyResolve at hc
    by_cases hab : p.absolute
    · rw [if_pos hab] at hc
      exact hp c (mem_normalize _ c hc)
    · rw [if_neg hab] at hc
      rcases List.mem_append.1 (mem_normalize _ c hc) with h | h
      · exact hws c h
      · exact hp c h
  have hcond : (pyResolve ws p = normalize ws
      ∨ (pathChars (normalize ws) ++ ['/']) <+: pathChars (pyResolve ws p))
      ↔ inWorkspace (normalize ws) (pyResolve ws p) := by
    unfold inWorkspace pathChars
    constructor
    · rintro (h | h)
      · exact Or.inl h
      · refine Or.inr ?_
        have h' : joinComps (normalize ws) ++ ['/'] <+: joinComps (pyResolve ws p) := by
          simpa [List.cons_prefix_cons] using h
        exact (joinComps_prefix_iff _ _ hroot hwsR hpR).1 h'
    · rintro (h | ⟨h1, h2⟩)
      · exact Or.inl h
      · refine Or.inr ?_
        have := (joinComps_prefix_iff _ _ hroot hwsR hpR).2 ⟨h1, h2⟩
        simpa [List.cons_prefix_cons] using this
  by_cases hin : inWorkspace (normalize ws) (pyResolve ws p)
  · rw [if_pos hin]
    unfold ensure_in_workspace
    rw [if_pos (hcond.2 hin)]
  · rw [if_neg hin]
    unfold ensure_in_workspace
    rw [if_neg (fun hc => hin (hcond.1 hc))]


theorem takeWhile_append_stop (p : Char → Bool) (l₁ l₂ : List Char) (c : Char)
    (h : ∀ x ∈ l₁, p x = true) (hc : p c = false) :
    (l₁ ++ c :: l₂).takeWhile p = l₁ := by
  induction l₁ with
  | nil => simp [List.takeWhile_cons, hc]
  | cons x xs ih =>
    rw [List.cons_append, List.takeWhile_cons, h x (by simp), if_pos rfl,
      ih (fun y hy => h y (List.mem_cons_of_mem _ hy))]

/-- Suffix-stripping ignores everything after the first colon. -/
theorem stripId_append_colon (a sfx : String) (h : ':' ∉ a.toList) :
    stripId (a ++ ":" ++ sfx) = a := by
  unfold stripId
  have hdata : (a ++ ":" ++ sfx).toList = a.toList ++ ':' :: sfx.toList := by
    show (a ++ ":" ++ sfx).data = a.data ++ ':' :: sfx.data
    simp [String.data_append]
  rw [hdata, takeWhile_append_stop _ _ _ _
    (fun x hx => by
      simp only [Bool.not_eq_true', beq_eq_false_iff_ne, ne_eq]
      intro he
      exact h (he ▸ hx))
    (by simp)]
  rfl

/-! ## Structure lemmas about the run stages -/

theorem resolveInput_ok_evs (cfg : Cfg) (w : World) (doc : Doc) (i : List Comp)
    (evs : List Ev) (h : resolveInput cfg w doc = Except.ok (i, evs)) :
    evs = [] ∨ evs = [Ev.writeInline i] := by
  unfold resolveInput at h
  split at h
  · -- file document
    split at h
    · exact absurd h (by simp)
    · split at h
      · exact absurd h (by simp)
      · split at h
        · exact absurd h (by simp)
        · simp at h
          exact Or.inl h.2
  · -- inline document
    split at h
    · exact absurd h (by simp)
    · split at h
      · exact absurd h (by simp)
      · simp at h
        refine Or.inr ?_
        rw [← h.2, h.1]

theorem prepExport_some (cfg : Cfg) (w : World) (e : ExportSpec)
    (tmpExport finalExport : List Comp)
    (h : prepExport cfg w (some e) = Except.ok (some (tmpExport, finalExport))) :
    ensure_in_workspace cfg.workspace e.out = some finalExport
    ∧ tmpExport = finalExport.dropLast ++ [tmpExportName finalExport w.tmpHex] := by
  unfold prepExport at h
  split at h
  case h_1 he => exact absurd h (by simp)
  case h_2 f he =>
    injection he with hef
    subst hef
    split at h
    case h_1 he2 => exact absurd h (by simp)
    case h_2 g he2 =>
      injection h with h0
      injection h0 with h1
      injection h1 with h2 h3
      subst h3
      exact ⟨he2, h2.symm⟩

theorem ensure_some_ne_nil (ws : List Comp) (p : PyPath) (q : List Comp)
    (hroot : normalize ws ≠ []) (h : ensure_in_workspace ws p = some q) : q ≠ [] := by
  unfold ensure_in_workspace at h
  split at h
  case isTrue hc =>
    injection h with h1
    subst h1
    rcases hc with hc | hc
    · rw [hc]; exact hroot
    · intro hq
      rw [hq] at hc
      have hl := hc.length_le
      simp [pathChars, joinComps] at hl
  case isFalse => exact absurd h (by simp)

theorem runProcess_res_ok (w : World) (k? : Option (List Char)) (cmd : List String)
    (hto : w.proc.timesOut = false) :
    (runProcess w k? cmd).1 = Except.ok (w.proc.returncode, w.proc.stdout, w.proc.stderr) := by
  cases k? <;> simp [runProcess, hto]

theorem runProcess_res_timeout (w : World) (k? : Option (List Char)) (cmd : List String)
    (hto : w.proc.timesOut = true) :
    (runProcess w k? cmd).1 = Except.error Err.timeout := by
  cases k? <;> simp [runProcess, hto]

theorem spawn_mem_runProcess (w : World) (k? : Option (List Char)) (cmd : List String) :
    Ev.spawn cmd ∈ (runProcess w k? cmd).2 := by
  cases k? <;> cases hto : w.proc.timesOut <;> simp [runProcess, hto]

/-- The locked trace is exactly the unlocked trace bracketed by the lock
acquisition and release: the lock is held for the whole process lifetime,
including the termination ladder. -/
theorem runProcess_some_trace (w : World) (key : List Char) (cmd : List String) :
    (runProcess w (some key) cmd).2
      = Ev.lockAcquire key :: ((runProcess w none cmd).2 ++ [Ev.lockRelease key]) := rfl

theorem notin_runProcess_none (w : World) (cmd : List String) (e : Ev)
    (h1 : ∀ c, e ≠ Ev.spawn c) (h2 : e ≠ Ev.killpgTerm) (h3 : e ≠ Ev.terminateProc)
    (h4 : e ≠ Ev.kill) (h5 : e ≠ Ev.reap) :
    e ∉ (runProcess w none cmd).2 := by
  cases hto : w.proc.timesOut <;> cases hw : w.isWindows <;> cases hg : w.proc.diesInGrace <;>
    simp [runProcess, hto, hw, hg, h1 cmd, h2, h3, h4, h5]

theorem notin_runBody (w : World) (texp? : Option (List Comp × List Comp))
    (res : Except Err (Int × String × String)) (e : Ev)
    (h1 : ∀ p, e ≠ Ev.mkdirp p) (h2 : ∀ s d, e ≠ Ev.replace s d) :
    e ∉ (runBody w texp? res).2 := by
  cases res with
  | error er => simp [runBody]
  | ok v =>
    obtain ⟨rc, so, se⟩ := v
    by_cases hrc : rc = 0
    · cases texp? with
      | none => simp [runBody, hrc]
      | some te =>
        obtain ⟨tmp, fin⟩ := te
        cases hte : w.tmpExportExists <;>
          simp [runBody, hrc, hte, h1 fin.dropLast, h2 tmp fin]
    · simp [runBody, hrc]

theorem notin_cleanup (doc : Doc) (infile : List Comp)
    (texp? : Option (List Comp × List Comp)) (e : Ev)
    (h : ∀ p, e ≠ Ev.unlink p) : e ∉ cleanupEvs doc infile texp? := by
  cases texp? with
  | none => cases hdk : doc.kind <;> simp [cleanupEvs, hdk, h infile]
  | some te =>
    obtain ⟨tmp, fin⟩ := te
    cases hdk : doc.kind <;> simp [cleanupEvs, hdk, h infile, h tmp]

/-- Unfolding of `_action_run_impl` once validation, input resolution and
export preparation have succeeded. -/
theorem action_run_ok_eq (cfg : Cfg) (w : World) (doc : Doc) (actions : List String)
    (export? : Option ExportSpec) (t : Option Nat) (infile : List Comp) (evsIn : List Ev)
    (texp? : Option (List Comp × List Comp))
    (hval : validate_actions actions = Except.ok actions)
    (hin : resolveInput cfg w doc = Except.ok (infile, evsIn))
    (hex : prepExport cfg w export? = Except.ok texp?) :
    action_run cfg w doc actions export? t
      = ((runBody w texp?
            (runProcess w (lockOf doc infile) (cmdOf infile actions export? texp?)).1).1,
         Ev.semAcquire :: (evsIn
           ++ (runProcess w (lockOf doc infile) (cmdOf infile actions export? texp?)).2
           ++ (runBody w texp?
                (runProcess w (lockOf doc infile) (cmdOf infile actions export? texp?)).1).2
           ++ cleanupEvs doc infile texp? ++ [Ev.semRelease])) := by
  simp [action_run, hval, hin, hex]

/-! ## Name and path distinctness lemmas -/

theorem pyStem_append_pySuffix (n : List Char) : pyStem n ++ pySuffix n = n :=
  List.take_append_drop _ _

theorem tmpExportName_length (f : List Comp) (hex : List Char) :
    (tmpExportName f hex).length = (f.getLast?.getD []).length + 5 + hex.length := by
  unfold tmpExportName
  have h := congrArg List.length (pyStem_append_pySuffix (f.getLast?.getD []))
  rw [List.length_append] at h
  have h5 : (".tmp-".toList).length = 5 := by decide
  simp only [List.length_append]
  omega

theorem joinComps_snoc_length (d : List Comp) (a : Comp) :
    (joinComps (d ++ [a])).length
      = (if d = [] then 0 else (joinComps d).length + 1) + a.length := by
  cases d with
  | nil => simp [joinComps]
  | cons c ds =>
    rw [joinComps_append (c :: ds) [a] (by simp) (by simp)]
    simp [joinComps]
    omega

theorem pathChars_snoc_ne (d : List Comp) (a b : Comp) (h : a.length ≠ b.length) :
    pathChars (d ++ [a]) ≠ pathChars (d ++ [b]) := by
  intro he
  have h1 := congrArg List.length he
  simp only [pathChars, List.length_cons] at h1
  have h2 := joinComps_snoc_length d a
  have h3 := joinComps_snoc_length d b
  by_cases hd : d = []
  · rw [if_pos hd] at h2 h3; omega
  · rw [if_neg hd] at h2 h3; omega

theorem tmp_path_ne_final (f : List Comp) (hex : List Char) (hf : f ≠ []) :
    f.dropLast ++ [tmpExportName f hex] ≠ f := by
  intro he
  have hg : f.dropLast ++ [f.getLast hf] = f := List.dropLast_append_getLast hf
  conv_rhs at he => rw [← hg]
  have h1 := List.append_cancel_left he
  simp at h1
  have hlen := tmpExportName_length f hex
  rw [h1] at hlen
  have h2 : f.getLast?.getD [] = f.getLast hf := by
    rw [List.getLast?_eq_getLast f hf]
    rfl
  rw [h2] at hlen
  omega

theorem tmpStr_ne_finalStr (f : List Comp) (hex : List Char) (hf : f ≠ []) :
    String.mk (pathChars (f.dropLast ++ [tmpExportName f hex]))
      ≠ String.mk (pathChars f) := by
  intro he
  have hp : pathChars (f.dropLast ++ [tmpExportName f hex]) = pathChars f := by
    injection he
  have hlen : (tmpExportName f hex).length ≠ (f.getLast hf).length := by
    have hl1 := tmpExportName_length f hex
    have h2 : f.getLast?.getD [] = f.getLast hf := by
      rw [List.getLast?_eq_getLast f hf]
      rfl
    rw [h2] at hl1
    omega
  have hg : f.dropLast ++ [f.getLast hf] = f := List.dropLast_append_getLast hf
  conv_rhs at hp => rw [← hg]
  exact pathChars_snoc_ne _ _ _ hlen hp

/-- No token of the form `export-dpi:<n>` starts with `export-filename:`. -/
theorem pyStartsWith_dpi (s : String) :
    pyStartsWith ("export-dpi:" ++ s) "export-filename:" = false := rfl

/-- The only token of the export tail that names an output file is the
`export-filename:` directive for the temporary path. -/
theorem exportActs_filename_unique (e : ExportSpec) (ts : String) :
    ("export-filename:" ++ ts) ∈ exportActs e ts
    ∧ ∀ a ∈ exportActs e ts, pyStartsWith a "export-filename:" = true
        → a = "export-filename:" ++ ts := by
  obtain ⟨et, out, dpi, area⟩ := e
  constructor
  · simp [exportActs]
  · intro a ha hpre
    cases dpi with
    | none =>
      simp [exportActs] at ha
      rcases ha with ha | ha | ha | ha
      · cases area <;> (subst ha; exact absurd hpre (by decide))
      · cases et <;> (subst ha; exact absurd hpre (by decide))
      · exact ha
      · subst ha; exact absurd hpre (by decide)
    | some d =>
      by_cases hd : d = 0
      · simp [exportActs, hd] at ha
        rcases ha with ha | ha | ha | ha
        · cases area <;> (subst ha; exact absurd hpre (by decide))
        · cases et <;> (subst ha; exact absurd hpre (by decide))
        · exact ha
        · subst ha; exact absurd hpre (by decide)
      · simp [exportActs, hd] at ha
        rcases ha with ha | ha | ha | ha | ha
        · cases area <;> (subst ha; exact absurd hpre (by decide))
        · cases et <;> (subst ha; exact absurd hpre (by decide))
        · exact ha
        · subst ha
          rw [pyStartsWith_dpi] at hpre
          exact absurd hpre (by simp)
        · subst ha; exact absurd hpre (by decide)

theorem validate_actions_ok (v l : List String) (h : validate_actions v = Except.ok l) :
    l = v := by
  unfold validate_actions at h
  split at h
  · exact absurd h (by simp)
  · injection h with h1
    exact h1.symm

theorem replace_notin_runProcess (w : World) (k? : Option (List Char)) (cmd : List String)
    (s d : List Comp) : Ev.replace s d ∉ (runProcess w k? cmd).2 := by
  cases k? with
  | none =>
    exact notin_runProcess_none w cmd _ (by simp) (by simp) (by simp) (by simp) (by simp)
  | some key =>
    rw [runProcess_some_trace]
    simp only [List.mem_cons, List.mem_append]
    rintro (h | h | h)
    · simp at h
    · exact notin_runProcess_none w cmd _ (by simp) (by simp) (by simp) (by simp) (by simp) h
    · simp at h

/-! ## C1 -/

/-- **C1**: `_ensure_in_workspace` succeeds, returning the canonicalized
candidate (joined to the workspace root when relative), exactly when that
canonical form equals the canonical workspace root or has it as a proper
component-wise ancestor; otherwise it fails with PathEscape.  In particular
a sibling directory whose name merely extends the root's name
(`/workspace-evil` against root `/workspace`) is rejected. -/
theorem C1_path_confinement (ws : List Comp) (p : PyPath)
    (hws : ∀ c ∈ ws, '/' ∉ c) (hp : ∀ c ∈ p.comps, '/' ∉ c)
    (hroot : normalize ws ≠ []) :
    (ensure_in_workspace ws p =
      if inWorkspace (normalize ws) (pyResolve ws p) then some (pyResolve ws p) else none)
    ∧ ensure_in_workspace ["workspace".toList] ⟨true, ["workspace-evil".toList]⟩ = none :=
  ⟨ensure_in_workspace_eq ws p hws hp hroot, by decide⟩

theorem C1_path_confinement_witness :
    (ensure_in_workspace ["ws".toList] ⟨false, ["a.svg".toList]⟩ =
      if inWorkspace (normalize ["ws".toList])
          (pyResolve ["ws".toList] ⟨false, ["a.svg".toList]⟩) then
        some (pyResolve ["ws".toList] ⟨false, ["a.svg".toList]⟩)
      else none)
    ∧ ensure_in_workspace ["workspace".toList] ⟨true, ["workspace-evil".toList]⟩ = none :=
  C1_path_confinement ["ws".toList] ⟨false, ["a.svg".toList]⟩
    (by decide) (by decide) (by decide)

/-! ## C2 -/

/-- **C2**: a request whose action list holds a token with a stripped
identifier outside the allowlist fails wholesale with UnsafeAction before
any process is spawned (the trace is empty of `spawn` events); validation
passes exactly when every token's identifier is allowlisted, and a token's
`:value` suffix never affects the check. -/
theorem C2_unsafe_action (cfg : Cfg) (w : World) (doc : Doc) (actions : List String)
    (export? : Option ExportSpec) (t : Option Nat) :
    ((∃ a ∈ actions, is_safe_action a = false) →
      (action_run cfg w doc actions export? t).1 = Except.error Err.unsafeAction
      ∧ ∀ c, Ev.spawn c ∉ (action_run cfg w doc actions export? t).2)
    ∧ (validate_actions actions = Except.ok actions ↔ ∀ a ∈ actions, is_safe_action a = true)
    ∧ (∀ a sfx : String, ':' ∉ a.toList →
        is_safe_action (a ++ ":" ++ sfx) = SAFE_ACTIONS.contains a) := by
  refine ⟨?_, ?_, ?_⟩
  · rintro ⟨a, ha, hfa⟩
    have hsome : (actions.find? (fun x => !(is_safe_action x))).isSome :=
      List.find?_isSome.mpr ⟨a, ha, by simp [hfa]⟩
    obtain ⟨b, hb⟩ := Option.isSome_iff_exists.mp hsome
    have hval : validate_actions actions = Except.error ("Unsafe action: " ++ b) := by
      simp [validate_actions, hb]
    constructor
    · simp [action_run, hval]
    · intro c
      simp [action_run, hval]
  · unfold validate_actions
    cases hf : actions.find? (fun x => !(is_safe_action x)) with
    | none =>
      constructor
      · intro _ a ha
        have := List.find?_eq_none.mp hf a ha
        simpa using this
      · intro _
        rfl
    | some b =>
      constructor
      · intro hcontra
        exact absurd hcontra (by simp)
      · intro hall
        have hbmem := List.mem_of_find?_eq_some hf
        have hbp := List.find?_some hf
        rw [hall b hbmem] at hbp
        simp at hbp
  · intro a sfx h
    unfold is_safe_action
    rw [stripId_append_colon a sfx h]

theorem C2_unsafe_action_witness :
    (action_run ⟨["ws".toList], 100, 60⟩
        ⟨some 10, ⟨false, true, 0, "", ""⟩, true, false, "aaaa".toList, "bbbb".toList⟩
        ⟨DocKind.file, some ⟨false, ["a.svg".toList]⟩, none⟩
        ["file-open"] none none).1 = Except.error Err.unsafeAction :=
  ((C2_unsafe_action ⟨["ws".toList], 100, 60⟩
      ⟨some 10, ⟨false, true, 0, "", ""⟩, true, false, "aaaa".toList, "bbbb".toList⟩
      ⟨DocKind.file, some ⟨false, ["a.svg".toList]⟩, none⟩
      ["file-open"] none none).1 (by decide)).1

/-! ## C7 -/

/-- **C7**: materialization fails TooLarge exactly when the size strictly
exceeds the configured maximum (stat'd size for a file, UTF-8 byte length
for inline content), succeeds at exactly the limit, and a missing file
fails NotFound. -/
theorem C7_size_limits (statSize : Option Nat) (maxFileSize s : Nat) (svg : String) :
    (check_size statSize maxFileSize = Except.error Err.notFound ↔ statSize = none)
    ∧ (check_size (some s) maxFileSize = Except.error Err.tooLarge ↔ s > maxFileSize)
    ∧ check_size (some maxFileSize) maxFileSize = Except.ok ()
    ∧ (inline_size_ok svg maxFileSize = Except.error Err.tooLarge
        ↔ svg.utf8ByteSize > maxFileSize)
    ∧ (svg.utf8ByteSize = maxFileSize → inline_size_ok svg maxFileSize = Except.ok ()) := by
  refine ⟨?_, ?_, ?_, ?_, ?_⟩
  · cases statSize with
    | none => simp [check_size]
    | some v =>
      by_cases h : v > maxFileSize <;> simp [check_size, h]
  · by_cases h : s > maxFileSize <;> simp [check_size, h]
  · simp [check_size]
  · by_cases h : svg.utf8ByteSize > maxFileSize <;> simp [inline_size_ok, h]
  · intro h
    simp [inline_size_ok, h]

theorem C7_size_limits_witness :
    check_size (some 5) 5 = Except.ok ()
    ∧ inline_size_ok "hello" 5 = Except.ok ()
    ∧ check_size (some 6) 5 = Except.error Err.tooLarge := by
  have h := C7_size_limits (some 5) 5 6 "hello"
  exact ⟨h.2.2.1, h.2.2.2.2 (by decide), h.2.1.mpr (by decide)⟩

/-! ## C10 -/

/-- **C10**: when some requested token starts with `select-` or `query-`,
the engine receives an extra `select-clear` prepended before the caller's
actions — the executed sequence is not the requested one; with no such
token the requested actions pass through unmodified up to the appended
export sub-steps. -/
theorem C10_select_clear (actions : List String) (export? : Option ExportSpec)
    (tmpStr? : Option String) :
    ((∃ a ∈ actions, (pyStartsWith a "select-" || pyStartsWith a "query-") = true) →
      mkActs actions export? tmpStr?
          = "select-clear" :: (actions ++ exportTail export? tmpStr?)
        ∧ mkActs actions export? tmpStr? ≠ actions ++ exportTail export? tmpStr?)
    ∧ ((∀ a ∈ actions, (pyStartsWith a "select-" || pyStartsWith a "query-") = false) →
      mkActs actions export? tmpStr? = actions ++ exportTail export? tmpStr?) := by
  constructor
  · intro h
    have hb : selectClearNeeded actions = true := List.any_eq_true.mpr h
    constructor
    · simp [mkActs, hb]
    · simp [mkActs, hb]
  · intro h
    have hb : selectClearNeeded actions = false := by
      rw [selectClearNeeded, List.any_eq_false]
      intro a ha
      simp [h a ha]
    simp [mkActs, hb]

theorem C10_select_clear_witness :
    mkActs ["select-all"] none none = ["select-clear", "select-all"]
    ∧ mkActs ["path-union"] none none = ["path-union"] := by
  have h1 := (C10_select_clear ["select-all"] none none).1 (by decide)
  have h2 := (C10_select_clear ["path-union"] none none).2 (by decide)
  exact ⟨by simpa [exportTail] using h1.1, by simpa [exportTail] using h2⟩

/-! ## C3 -/

/-- **C3** counterexample: on the Windows branch of a timed-out run, the
graceful step is `proc.terminate()` on the child process alone — no
termination signal is sent to the child's whole process group, refuting
the claim as stated for Windows runs. -/
theorem C3_counterexample :
    (runProcess ⟨some 10, ⟨true, true, 0, "", ""⟩, true, true, [], []⟩ none ["inkscape"]).1
      = Except.error Err.timeout
    ∧ Ev.killpgTerm ∉
        (runProcess ⟨some 10, ⟨true, true, 0, "", ""⟩, true, true, [], []⟩ none ["inkscape"]).2
    ∧ Ev.terminateProc ∈
        (runProcess ⟨some 10, ⟨true, true, 0, "", ""⟩, true, true, [], []⟩ none ["inkscape"]).2 :=
  ⟨by decide, by decide, by decide⟩

/-- **C3** (amended): on every timed-out run the runner performs the graceful
step (SIGTERM to the whole process group on POSIX; `terminate()` on the
child process alone on Windows), force-kills and reaps exactly when the
child survives the 5-unit grace period, and in every timeout branch the
caller receives Timeout — never the process's own exit status. -/
theorem C3_timeout_ladder (w : World) (lockKey? : Option (List Char)) (cmd : List String)
    (hto : w.proc.timesOut = true) :
    (runProcess w lockKey? cmd).1 = Except.error Err.timeout
    ∧ (w.isWindows = false → Ev.killpgTerm ∈ (runProcess w lockKey? cmd).2
        ∧ Ev.terminateProc ∉ (runProcess w lockKey? cmd).2)
    ∧ (w.isWindows = true → Ev.terminateProc ∈ (runProcess w lockKey? cmd).2)
    ∧ (w.proc.diesInGrace = false →
        Ev.kill ∈ (runProcess w lockKey? cmd).2 ∧ Ev.reap ∈ (runProcess w lockKey? cmd).2)
    ∧ (w.proc.diesInGrace = true → Ev.kill ∉ (runProcess w lockKey? cmd).2) := by
  cases lockKey? <;> cases hw : w.isWindows <;> cases hg : w.proc.diesInGrace <;>
    simp [runProcess, hto, hw, hg]

theorem C3_timeout_ladder_witness :
    (runProcess ⟨some 10, ⟨true, false, 0, "", ""⟩, false, false, [], []⟩
        (some "k".toList) ["inkscape"]).1 = Except.error Err.timeout
    ∧ Ev.killpgTerm ∈ (runProcess ⟨some 10, ⟨true, false, 0, "", ""⟩, false, false, [], []⟩
        (some "k".toList) ["inkscape"]).2
    ∧ Ev.kill ∈ (runProcess ⟨some 10, ⟨true, false, 0, "", ""⟩, false, false, [], []⟩
        (some "k".toList) ["inkscape"]).2 := by
  have h := C3_timeout_ladder ⟨some 10, ⟨true, false, 0, "", ""⟩, false, false, [], []⟩
    (some "k".toList) ["inkscape"] (by decide)
  exact ⟨h.1, (h.2.1 (by decide)).1, (h.2.2.2.1 (by decide)).1⟩

/-! ## C6 -/

/-- **C6** (code bug): on the exit path where the export destination fails
path validation, the inline-derived temporary input file has already been
written but is never deleted — the `ValidationError` is raised inside
`async with SEM:` but before the `try/finally` cleanup block is entered, so
the trace holds the `writeInline` effect and no `unlink` at all. -/
theorem C6_cleanup_leak :
    (action_run cfgW wOk docInline []
        (some ⟨ExportType.png, ⟨false, [['.', '.'], "evil.png".toList]⟩, none, ExportArea.page⟩)
        none).1 = Except.error Err.pathEscape
    ∧ (action_run cfgW wOk docInline []
        (some ⟨ExportType.png, ⟨false, [['.', '.'], "evil.png".toList]⟩, none, ExportArea.page⟩)
        none).2
      = [Ev.semAcquire, Ev.writeInline (cfgW.workspace ++ [inlineName wOk]), Ev.semRelease] :=
  ⟨by decide, by decide⟩

/-! ## C8 -/

/-- **C8** counterexample: a backslash-delimited candidate resolves to a
single-component name under the workspace, not to the same result as its
native-separator equivalent — no separator splitting happens anywhere in
path resolution. -/
theorem C8_counterexample :
    ensure_in_workspace ["ws".toList] (parsePath "sub\\file.svg")
      ≠ ensure_in_workspace ["ws".toList] (parsePath "sub/file.svg")
    ∧ ensure_in_workspace ["ws".toList] (parsePath "sub\\file.svg")
      = some ["ws".toList, "sub\\file.svg".toList]
    ∧ ensure_in_workspace ["ws".toList] (parsePath "sub/file.svg")
      = some ["ws".toList, "sub".toList, "file.svg".toList] :=
  ⟨by decide, by decide, by decide⟩

/-- **C8** (amended): path resolution performs no separator normalization:
every component of a resolved path is passed through verbatim from the
workspace root or the candidate (`.`/`..` elimination only removes
components), so foreign-OS separators are treated as ordinary name
characters rather than split points. -/
theorem C8_no_separator_normalization (ws : List Comp) (p : PyPath) (c : Comp)
    (hc : c ∈ pyResolve ws p) : c ∈ ws ∨ c ∈ p.comps := by
  unfold pyResolve at hc
  by_cases hab : p.absolute
  · rw [if_pos hab] at hc
    exact Or.inr (mem_normalize _ _ hc)
  · rw [if_neg hab] at hc
    exact List.mem_append.mp (mem_normalize _ _ hc)

theorem C8_no_separator_normalization_witness :
    "sub\\file.svg".toList ∈ ["ws".toList]
    ∨ "sub\\file.svg".toList ∈ (PyPath.mk false ["sub\\file.svg".toList]).comps :=
  C8_no_separator_normalization ["ws".toList] ⟨false, ["sub\\file.svg".toList]⟩
    "sub\\file.svg".toList (by decide)

/-! ## C9 -/

/-- **C9** counterexample: a run whose child exits 1 with stderr "boom"
fails with the fixed message "inkscape failed" — the captured stderr does
not appear in the error. -/
theorem C9_counterexample :
    (action_run cfgW
        ⟨some 10, ⟨false, true, 1, "", "boom"⟩, true, false, "aaaa".toList, "bbbb".toList⟩
        docFileA [] none none).1
      = Except.error (Err.executionFailed "inkscape failed")
    ∧ ¬ ("boom".toList <:+: "inkscape failed".toList) :=
  ⟨by decide, by decide⟩

/-- **C9** (amended): a non-timeout run whose child exits non-zero fails
with ExecutionFailed carrying the fixed message "inkscape failed"; the
captured stderr is discarded, not attached to the error. -/
theorem C9_execution_failed (cfg : Cfg) (w : World) (doc : Doc) (actions : List String)
    (export? : Option ExportSpec) (t : Option Nat) (infile : List Comp) (evsIn : List Ev)
    (texp? : Option (List Comp × List Comp))
    (hval : validate_actions actions = Except.ok actions)
    (hin : resolveInput cfg w doc = Except.ok (infile, evsIn))
    (hex : prepExport cfg w export? = Except.ok texp?)
    (hto : w.proc.timesOut = false) (hrc : w.proc.returncode ≠ 0) :
    (action_run cfg w doc actions export? t).1
      = Except.error (Err.executionFailed "inkscape failed") := by
  cases hdk : doc.kind <;>
    simp [action_run, hval, hin, hex, runProcess, runBody, lockOf, hto, hrc, hdk]

/-! ## C4 -/

/-- **C4**: when an export is requested, the service's export directives
reference only the temporary path, which is distinct from the destination
(as a path and as a string); after a successful run, a missing temporary
artifact fails with ExportMissing, and otherwise the missing destination
directories are created and the artifact is moved by a single atomic
replace; a replace targeting the destination happens only from the
temporary path and only when the run fully succeeded, so the destination
never holds a partially written file. -/
theorem C4_atomic_export (cfg : Cfg) (w : World) (doc : Doc) (actions : List String)
    (e : ExportSpec) (t : Option Nat) (infile : List Comp) (evsIn : List Ev)
    (tmpExport finalExport : List Comp)
    (hval : validate_actions actions = Except.ok actions)
    (hin : resolveInput cfg w doc = Except.ok (infile, evsIn))
    (hex : prepExport cfg w (some e) = Except.ok (some (tmpExport, finalExport)))
    (hroot : normalize cfg.workspace ≠ []) :
    (("export-filename:" ++ String.mk (pathChars tmpExport))
        ∈ exportActs e (String.mk (pathChars tmpExport))
      ∧ ∀ a ∈ exportActs e (String.mk (pathChars tmpExport)),
          pyStartsWith a "export-filename:" = true
            → a = "export-filename:" ++ String.mk (pathChars tmpExport))
    ∧ tmpExport ≠ finalExport
    ∧ String.mk (pathChars tmpExport) ≠ String.mk (pathChars finalExport)
    ∧ (w.proc.timesOut = false → w.proc.returncode = 0 → w.tmpExportExists = false →
        (action_run cfg w doc actions (some e) t).1 = Except.error Err.exportMissing)
    ∧ (w.proc.timesOut = false → w.proc.returncode = 0 → w.tmpExportExists = true →
        (action_run cfg w doc actions (some e) t).1 = Except.ok (some finalExport)
        ∧ Ev.mkdirp finalExport.dropLast ∈ (action_run cfg w doc actions (some e) t).2
        ∧ Ev.replace tmpExport finalExport ∈ (action_run cfg w doc actions (some e) t).2)
    ∧ (∀ src, Ev.replace src finalExport ∈ (action_run cfg w doc actions (some e) t).2 →
        src = tmpExport ∧ w.proc.timesOut = false ∧ w.proc.returncode = 0
          ∧ w.tmpExportExists = true) := by
  obtain ⟨hens, htmp⟩ := prepExport_some cfg w e tmpExport finalExport hex
  have hfne : finalExport ≠ [] := ensure_some_ne_nil _ _ _ hroot hens
  have hareq := action_run_ok_eq cfg w doc actions (some e) t infile evsIn
    (some (tmpExport, finalExport)) hval hin hex
  refine ⟨exportActs_filename_unique e (String.mk (pathChars tmpExport)),
    ?_, ?_, ?_, ?_, ?_⟩
  · rw [htmp]
    exact tmp_path_ne_final finalExport w.tmpHex hfne
  · rw [htmp]
    exact tmpStr_ne_finalStr finalExport w.tmpHex hfne
  · intro h1 h2 h3
    rw [hareq]
    rw [runProcess_res_ok _ _ _ h1]
    simp [runBody, h2, h3]
  · intro h1 h2 h3
    rw [hareq]
    rw [runProcess_res_ok _ _ _ h1]
    refine ⟨by simp [runBody, h2, h3], ?_, ?_⟩ <;> simp [runBody, h2, h3]
  · intro src hmem
    rw [hareq] at hmem
    simp only [List.mem_cons, List.mem_append, or_assoc] at hmem
    rcases hmem with h | h | h | h | h | h
    · simp at h
    · rcases resolveInput_ok_evs _ _ _ _ _ hin with hi | hi <;> rw [hi] at h <;> simp at h
    · exact absurd h (replace_notin_runProcess _ _ _ _ _)
    · -- the publish events of the body
      cases hto : w.proc.timesOut with
      | true =>
        rw [runProcess_res_timeout _ _ _ hto] at h
        simp [runBody] at h
      | false =>
        rw [runProcess_res_ok _ _ _ hto] at h
        by_cases hrc : w.proc.returncode = 0
        · cases hte : w.tmpExportExists with
          | false => simp [runBody, hrc, hte] at h
          | true =>
            simp [runBody, hrc, hte] at h
            exact ⟨h, rfl, hrc, rfl⟩
        · simp [runBody, hrc] at h
    · exact absurd h (notin_cleanup _ _ _ _ (by simp))
    · simp at h

theorem C4_atomic_export_witness :
    (action_run cfgW wOk docFileA []
        (some ⟨ExportType.png, ⟨false, ["out.png".toList]⟩, none, ExportArea.page⟩) none).1
      = Except.ok (some ["ws".toList, "out.png".toList])
    ∧ Ev.replace ["ws".toList, "out.tmp-bbbb.png".toList] ["ws".toList, "out.png".toList]
        ∈ (action_run cfgW wOk docFileA []
            (some ⟨ExportType.png, ⟨false, ["out.png".toList]⟩, none, ExportArea.page⟩)
            none).2 := by
  have h := C4_atomic_export cfgW wOk docFileA []
    ⟨ExportType.png, ⟨false, ["out.png".toList]⟩, none, ExportArea.page⟩ none
    ["ws".toList, "a.svg".toList] []
    ["ws".toList, "out.tmp-bbbb.png".toList] ["ws".toList, "out.png".toList]
    (by decide) (by decide) (by decide) (by decide)
  have h5 := h.2.2.2.2.1 (by decide) (by decide) (by decide)
  exact ⟨h5.1, h5.2.2⟩

/-! ## C5 -/

/-- **C5**: for file-kind documents an exclusive filesystem lock keyed by
the resolved input path (plus the `.lock` suffix) is acquired before the
spawn, held around the whole process lifetime including the termination
ladder, and released afterwards; inline-kind documents acquire no lock on
any code path. -/
theorem C5_per_file_lock (w : World) (cmd : List String) (key : List Char)
    (cfg : Cfg) (doc : Doc) (actions : List String) (export? : Option ExportSpec)
    (t : Option Nat) (infile : List Comp) (evsIn : List Ev)
    (texp? : Option (List Comp × List Comp)) :
    ((runProcess w (some key) cmd).2
        = Ev.lockAcquire key :: ((runProcess w none cmd).2 ++ [Ev.lockRelease key])
      ∧ Ev.spawn cmd ∈ (runProcess w none cmd).2
      ∧ ∀ k, Ev.lockAcquire k ∉ (runProcess w none cmd).2)
    ∧ (doc.kind = DocKind.inline →
        ∀ k, Ev.lockAcquire k ∉ (action_run cfg w doc actions export? t).2)
    ∧ (doc.kind = DocKind.file →
        validate_actions actions = Except.ok actions →
        resolveInput cfg w doc = Except.ok (infile, evsIn) →
        prepExport cfg w export? = Except.ok texp? →
        Ev.lockAcquire (lockKey infile) ∈ (action_run cfg w doc actions export? t).2
        ∧ Ev.lockRelease (lockKey infile) ∈ (action_run cfg w doc actions export? t).2) := by
  refine ⟨⟨runProcess_some_trace w key cmd, spawn_mem_runProcess w none cmd,
    fun k => notin_runProcess_none w cmd _ (by simp) (by simp) (by simp) (by simp) (by simp)⟩,
    ?_, ?_⟩
  · intro hdk k
    cases hval : validate_actions actions with
    | error msg => simp [action_run, hval]
    | ok l =>
      have hl := validate_actions_ok _ _ hval
      rw [hl] at hval
      cases hres : resolveInput cfg w doc with
      | error er => simp [action_run, hval, hres]
      | ok pr =>
        obtain ⟨inf0, evs0⟩ := pr
        have hevs := resolveInput_ok_evs _ _ _ _ _ hres
        cases hexp : prepExport cfg w export? with
        | error er =>
          rcases hevs with hi | hi <;>
            simp [action_run, hval, hres, hexp, hi]
        | ok texp0 =>
          rw [action_run_ok_eq cfg w doc actions export? t inf0 evs0 texp0 hval hres hexp]
          have hlock : lockOf doc inf0 = none := by simp [lockOf, hdk]
          rw [hlock]
          simp only [List.mem_cons, List.mem_append, or_assoc]
          rintro (h | h | h | h | h | h)
          · simp at h
          · rcases hevs with hi | hi <;> rw [hi] at h <;> simp at h
          · exact notin_runProcess_none w _ _ (by simp) (by simp) (by simp) (by simp)
              (by simp) h
          · exact notin_runBody w _ _ _ (by simp) (by simp) h
          · exact notin_cleanup doc inf0 texp0 _ (by simp) h
          · simp at h
  · intro hdk hval hin hex
    rw [action_run_ok_eq cfg w doc actions export? t infile evsIn texp? hval hin hex]
    have hlock : lockOf doc infile = some (lockKey infile) := by simp [lockOf, hdk]
    rw [hlock, runProcess_some_trace]
    constructor <;> simp

theorem C5_per_file_lock_witness :
    Ev.lockAcquire (lockKey ["ws".toList, "a.svg".toList])
      ∈ (action_run cfgW wOk docFileA ["select-all"] none none).2
    ∧ Ev.spawn ["inkscape"] ∈ (runProcess wOk none ["inkscape"]).2 := by
  have h := C5_per_file_lock wOk ["inkscape"] "k".toList cfgW docFileA ["select-all"]
    none none ["ws".toList, "a.svg".toList] [] none
  exact ⟨(h.2.2 (by decide) (by decide) (by decide) (by decide)).1, h.1.2.1⟩

theorem C9_execution_failed_witness :
    (action_run cfgW
        ⟨some 10, ⟨false, true, 2, "", ""⟩, true, false, "aaaa".toList, "bbbb".toList⟩
        docFileA [] none none).1
      = Except.error (Err.executionFailed "inkscape failed") :=
  C9_execution_failed cfgW
    ⟨some 10, ⟨false, true, 2, "", ""⟩, true, false, "aaaa".toList, "bbbb".toList⟩
    docFileA [] none none ["ws".toList, "a.svg".toList] [] none
    (by decide) (by decide) (by decide) (by decide) (by decide)

end InkscapeMcp
